import Mathlib

/-!
# Verification of `HierarchicalTokenBucket` (src/src/index.ts)

Shallow embedding of the hierarchical token bucket. JavaScript numbers are
modelled as rationals (`ℚ`); timestamps are milliseconds (`Date.now()`);
`firstTimestamp : number | undefined` is `Option ℚ`.

A bucket together with its ancestors is modelled as a `List Bucket`:
the head is the bucket itself, the tail its parent chain (the parent link
`options.parent?` of the source); `[]` after the last ancestor plays the
role of an absent parent.
-/

/-- Mutable state and configuration of one `HierarchicalTokenBucket`:
`options.maximumCapacity`, `options.refillRate`, and the private fields
`lastTimestamp`, `capacity`, `firstTimestamp`, `count`. -/
structure Bucket where
  maximumCapacity : ℚ
  refillRate : ℚ
  lastTimestamp : ℚ
  capacity : ℚ
  firstTimestamp : Option ℚ
  count : ℕ
  deriving Repr, DecidableEq

instance : Inhabited Bucket :=
  ⟨{ maximumCapacity := 1, refillRate := 1, lastTimestamp := 0, capacity := 1,
     firstTimestamp := none, count := 0 }⟩

/-- JavaScript truthiness test `!x` on a `number | undefined` value:
`undefined` and `0` are falsy (NaN does not arise over `ℚ`). -/
def jsFalsy : Option ℚ → Bool
  | none => true
  | some x => x == 0

/-- JavaScript `x || y` on numbers: `y` when `x` is falsy (i.e. `0`), else `x`. -/
def jsOr (x y : ℚ) : ℚ :=
  if x == 0 then y else x

/-- The constructor `new HierarchicalTokenBucket(options)` called at wall-clock
time `now`: throws unless `maximumCapacity >= 1` and `refillRate > 0`, then sets
`lastTimestamp = Date.now()` and `capacity = options.maximumCapacity`. -/
def Bucket.make (now maximumCapacity refillRate : ℚ) : Except String Bucket :=
  if ¬ (maximumCapacity ≥ 1) then
    .error "HierarchicalTokenBucket.maximumCapacity must be >= 1"
  else if ¬ (refillRate > 0) then
    .error "HierarchicalTokenBucket.refillRate must be > 0"
  else
    .ok { maximumCapacity := maximumCapacity
          refillRate := refillRate
          lastTimestamp := now
          capacity := maximumCapacity
          firstTimestamp := none
          count := 0 }

/-- `private addOneToMetrics()`: `if (!this.firstTimestamp) this.firstTimestamp
= Date.now(); this.count++`. -/
def addOneToMetrics (now : ℚ) (b : Bucket) : Bucket :=
  { b with
    firstTimestamp := if jsFalsy b.firstTimestamp then some now else b.firstTimestamp
    count := b.count + 1 }

/-- `private refreshCapacity()`: `elapsedTimeInSeconds = (Date.now() -
lastTimestamp) / 1000; lastTimestamp = Date.now(); capacity = min(capacity +
refillRate * elapsedTimeInSeconds, maximumCapacity)`. -/
def refreshCapacity (now : ℚ) (b : Bucket) : Bucket :=
  { b with
    lastTimestamp := now
    capacity := min (b.capacity + b.refillRate * ((now - b.lastTimestamp) / 1000))
                    b.maximumCapacity }

/-- The statement `this.capacity -= 1` of `take`. -/
def debitOne (b : Bucket) : Bucket :=
  { b with capacity := b.capacity - 1 }

/-- `take()` on a bucket and its parent chain, at wall-clock time `now`,
following the source's statement order: `addOneToMetrics(); refreshCapacity();
timeForThisToWait = (1 - capacity) / refillRate; timeForParentToWait =
parent?.take() || 0; capacity -= 1; return Math.max(0, timeForThisToWait,
timeForParentToWait)`. Returns the updated chain and the wait time.
`take` is a total function: it cannot fail at runtime. -/
def takeFrom (now : ℚ) : List Bucket → List Bucket × ℚ
  | [] => ([], 0)
  | b :: rest =>
    let b2 := refreshCapacity now (addOneToMetrics now b)
    let timeForThisToWait := (1 - b2.capacity) / b2.refillRate
    let pr := takeFrom now rest
    let timeForParentToWait := jsOr pr.2 0
    (debitOne b2 :: pr.1, max (max 0 timeForThisToWait) timeForParentToWait)

/-- The global chain state at the moment the recursive `parent?.take()` call of
`take` begins: per the source's line order, the callee has already run
`addOneToMetrics` and `refreshCapacity` on itself but has not yet executed
`this.capacity -= 1`, and the ancestors (`rest`) are untouched. -/
def stateAtParentCall (now : ℚ) (b : Bucket) (rest : List Bucket) : List Bucket :=
  refreshCapacity now (addOneToMetrics now b) :: rest

/-- The per-bucket effect of one `take` on each member of the chain:
metrics, then refill, then the debit `capacity -= 1`. -/
def stepBucket (now : ℚ) (b : Bucket) : Bucket :=
  debitOne (refreshCapacity now (addOneToMetrics now b))

/-- The deficit-closing time a chain member contributes to `take`'s result:
`(1 - capacity) / refillRate` computed right after that member's refill. -/
def waitOf (now : ℚ) (b : Bucket) : ℚ :=
  (1 - (refreshCapacity now (addOneToMetrics now b)).capacity)
    / (refreshCapacity now (addOneToMetrics now b)).refillRate

/-- `child(options?)`: the explicit-overrides branch takes `options.maximumCapacity`
and `options.refillRate`, the no-overrides branch copies `this.options`; either
way the result comes from `new HierarchicalTokenBucket({...})`. -/
def childOf (now : ℚ) (overrides : Option (ℚ × ℚ)) (receiver : Bucket) :
    Except String Bucket :=
  Bucket.make now
    (match overrides with | some o => o.1 | none => receiver.maximumCapacity)
    (match overrides with | some o => o.2 | none => receiver.refillRate)

/-- `child` as an operation on the receiver's chain: returns the receiver's
chain after the call (the method performs no assignment to `this`, so it is
returned as-is) together with the derived child's chain, whose parent link is
the receiver. -/
def deriveChild (now : ℚ) (overrides : Option (ℚ × ℚ)) :
    List Bucket → Except String (List Bucket × List Bucket)
  | [] => .error "receiver must be a constructed bucket"
  | hd :: tl => (childOf now overrides hd).map fun c => (hd :: tl, c :: hd :: tl)

/-- One entry of the `metadata` snapshot: `options.maximumCapacity`,
`options.refillRate` and the four metric fields. -/
structure MetaEntry where
  maximumCapacity : ℚ
  refillRate : ℚ
  firstTimestamp : Option ℚ
  lastTimestamp : ℚ
  count : ℕ
  capacity : ℚ
  deriving Repr, DecidableEq

/-- The `metadata` getter, flattened along the recursive `parent` field:
one snapshot entry per chain member, and no mutation (the getter only reads,
so the chain after the call is the chain itself). -/
def metadataOf (chain : List Bucket) : List MetaEntry × List Bucket :=
  (chain.map fun b =>
    { maximumCapacity := b.maximumCapacity
      refillRate := b.refillRate
      firstTimestamp := b.firstTimestamp
      lastTimestamp := b.lastTimestamp
      count := b.count
      capacity := b.capacity }, chain)

/-- Repeated `take` at the same wall-clock instant `now`: the list of wait
times returned by `k` successive calls, and the chain state after them. -/
def takeSeq (now : ℚ) : ℕ → List Bucket → List ℚ × List Bucket
  | 0, chain => ([], chain)
  | k + 1, chain =>
    let pr := takeFrom now chain
    let rec' := takeSeq now k pr.1
    (pr.2 :: rec'.1, rec'.2)

/-- Chain state after `k` successive `take` calls at time `now`. -/
def afterTakes (now : ℚ) (k : ℕ) (chain : List Bucket) : List Bucket :=
  (takeSeq now k chain).2

/-- Wait time returned by the `take` call that follows `k` previous `take`
calls, all at time `now`. -/
def nextWait (now : ℚ) (k : ℕ) (chain : List Bucket) : ℚ :=
  (takeFrom now (afterTakes now k chain)).2

/-- Modelled from the spec's ordering sentence ("the bucket always debits
itself before recursing to the parent in terms of state mutation"): a variant
of `take` that applies `capacity -= 1` before the recursive `parent?.take()`
call, to be compared against `takeFrom`, which follows the source's actual
order (debit after the recursive call). -/
def takeDebitFirst (now : ℚ) : List Bucket → List Bucket × ℚ
  | [] => ([], 0)
  | b :: rest =>
    let b2 := refreshCapacity now (addOneToMetrics now b)
    let timeForThisToWait := (1 - b2.capacity) / b2.refillRate
    let b3 := debitOne b2
    let pr := takeDebitFirst now rest
    (b3 :: pr.1, max (max 0 timeForThisToWait) (jsOr pr.2 0))

/-- A freshly constructed bucket at creation time `0` with the given
configuration: `capacity = maximumCapacity`, no takes yet. -/
def freshBucket (m r : ℚ) : Bucket :=
  { maximumCapacity := m, refillRate := r, lastTimestamp := 0, capacity := m,
    firstTimestamp := none, count := 0 }

/-- The chain of the spec's hierarchical-composition example: child(1000, 100)
with parent(100, 10) and grandparent(10, 1), all freshly constructed. -/
def exampleChain : List Bucket :=
  [freshBucket 1000 100, freshBucket 100 10, freshBucket 10 1]

section FieldLemmas

@[simp] lemma addOneToMetrics_capacity (now : ℚ) (b : Bucket) :
    (addOneToMetrics now b).capacity = b.capacity := rfl

@[simp] lemma addOneToMetrics_refillRate (now : ℚ) (b : Bucket) :
    (addOneToMetrics now b).refillRate = b.refillRate := rfl

@[simp] lemma addOneToMetrics_maximumCapacity (now : ℚ) (b : Bucket) :
    (addOneToMetrics now b).maximumCapacity = b.maximumCapacity := rfl

@[simp] lemma addOneToMetrics_lastTimestamp (now : ℚ) (b : Bucket) :
    (addOneToMetrics now b).lastTimestamp = b.lastTimestamp := rfl

@[simp] lemma addOneToMetrics_count (now : ℚ) (b : Bucket) :
    (addOneToMetrics now b).count = b.count + 1 := rfl

@[simp] lemma refreshCapacity_refillRate (now : ℚ) (b : Bucket) :
    (refreshCapacity now b).refillRate = b.refillRate := rfl

@[simp] lemma refreshCapacity_maximumCapacity (now : ℚ) (b : Bucket) :
    (refreshCapacity now b).maximumCapacity = b.maximumCapacity := rfl

@[simp] lemma refreshCapacity_lastTimestamp (now : ℚ) (b : Bucket) :
    (refreshCapacity now b).lastTimestamp = now := rfl

@[simp] lemma refreshCapacity_firstTimestamp (now : ℚ) (b : Bucket) :
    (refreshCapacity now b).firstTimestamp = b.firstTimestamp := rfl

@[simp] lemma refreshCapacity_count (now : ℚ) (b : Bucket) :
    (refreshCapacity now b).count = b.count := rfl

lemma refreshCapacity_capacity (now : ℚ) (b : Bucket) :
    (refreshCapacity now b).capacity
      = min (b.capacity + b.refillRate * ((now - b.lastTimestamp) / 1000))
            b.maximumCapacity := rfl

@[simp] lemma debitOne_capacity (b : Bucket) :
    (debitOne b).capacity = b.capacity - 1 := rfl

@[simp] lemma debitOne_refillRate (b : Bucket) :
    (debitOne b).refillRate = b.refillRate := rfl

@[simp] lemma debitOne_maximumCapacity (b : Bucket) :
    (debitOne b).maximumCapacity = b.maximumCapacity := rfl

@[simp] lemma debitOne_lastTimestamp (b : Bucket) :
    (debitOne b).lastTimestamp = b.lastTimestamp := rfl

@[simp] lemma debitOne_firstTimestamp (b : Bucket) :
    (debitOne b).firstTimestamp = b.firstTimestamp := rfl

@[simp] lemma jsOr_zero (x : ℚ) : jsOr x 0 = x := by
  unfold jsOr
  split
  · next h => simpa using (beq_iff_eq.mp h).symm
  · rfl

@[simp] lemma stepBucket_refillRate (now : ℚ) (b : Bucket) :
    (stepBucket now b).refillRate = b.refillRate := rfl

@[simp] lemma stepBucket_maximumCapacity (now : ℚ) (b : Bucket) :
    (stepBucket now b).maximumCapacity = b.maximumCapacity := rfl

@[simp] lemma stepBucket_lastTimestamp (now : ℚ) (b : Bucket) :
    (stepBucket now b).lastTimestamp = now := rfl

lemma stepBucket_capacity (now : ℚ) (b : Bucket) :
    (stepBucket now b).capacity
      = min (b.capacity + b.refillRate * ((now - b.lastTimestamp) / 1000))
            b.maximumCapacity - 1 := rfl

end FieldLemmas

section TakeLemmas

/-- The state component of `take`: every chain member undergoes metrics,
refill, and the one-token debit. -/
lemma takeFrom_fst (now : ℚ) (chain : List Bucket) :
    (takeFrom now chain).1 = chain.map (stepBucket now) := by
  induction chain with
  | nil => rfl
  | cons b rest ih => simp [takeFrom, stepBucket, ih]

lemma foldr_max_nonneg (l : List ℚ) : 0 ≤ l.foldr max 0 := by
  induction l with
  | nil => exact le_refl 0
  | cons x l ih => exact le_max_of_le_right ih

/-- The wait component of `take`: the maximum of `0` and every chain member's
post-refill deficit-closing time. -/
lemma takeFrom_snd (now : ℚ) (chain : List Bucket) :
    (takeFrom now chain).2 = (chain.map (waitOf now)).foldr max 0 := by
  induction chain with
  | nil => rfl
  | cons b rest ih =>
    show max (max 0 _) (jsOr (takeFrom now rest).2 0) = _
    rw [jsOr_zero, ih, List.map_cons, List.foldr_cons]
    rw [max_comm 0 _, max_assoc]
    exact congrArg _ (max_eq_right (foldr_max_nonneg _))

end TakeLemmas

section SharedHelpers

/-- Concrete bucket state used to exhibit a debit driving capacity negative. -/
def debtBucket : Bucket :=
  { maximumCapacity := 1, refillRate := 1, lastTimestamp := 0, capacity := 0,
    firstTimestamp := none, count := 0 }

/-- Concrete bucket state whose `lastTimestamp` lies in the future of a
backward-stepping clock reading. -/
def backwardClockBucket : Bucket :=
  { maximumCapacity := 100, refillRate := 10, lastTimestamp := 1000, capacity := 5,
    firstTimestamp := none, count := 0 }

/-- Taking from `debtBucket`, whose capacity is `0`, drives its capacity
negative: the debit is not clamped below. -/
lemma debtBucket_take_negative :
    (∀ b ∈ [debtBucket], 0 ≤ b.capacity) ∧
    ∃ b' ∈ (takeFrom 0 [debtBucket]).1, b'.capacity < 0 := by
  constructor
  · intro b hb
    simp only [List.mem_singleton] at hb
    subst hb
    decide
  · refine ⟨stepBucket 0 debtBucket, ?_, ?_⟩
    · rw [takeFrom_fst]; simp
    · rw [stepBucket_capacity]
      simp only [debtBucket]
      norm_num [min_def]

/-- `child()` performs no assignment to the receiver: whatever chain it is
called on is returned unchanged alongside the derived child's chain. -/
lemma deriveChild_fst (now : ℚ) (ov : Option (ℚ × ℚ)) (receiver : List Bucket)
    (out : List Bucket × List Bucket) (h : deriveChild now ov receiver = .ok out) :
    out.1 = receiver := by
  match receiver with
  | [] => simp [deriveChild] at h
  | hd :: tl =>
    simp only [deriveChild] at h
    cases hco : childOf now ov hd with
    | error e => rw [hco] at h; simp [Except.map] at h
    | ok c =>
      rw [hco] at h
      simp only [Except.map, Except.ok.injEq] at h
      rw [← h]

end SharedHelpers

/-- C2: construction (and child-derivation with explicit overrides, which runs
the same constructor) fails exactly when `maximumCapacity < 1` or
`refillRate ≤ 0`; every valid pair yields a bucket with `capacity =
maximumCapacity` and `count = 0`. -/
theorem construction_validates_iff (now m r : ℚ) :
    ((∃ e, Bucket.make now m r = .error e) ↔ (m < 1 ∨ r ≤ 0))
    ∧ (∀ b, Bucket.make now m r = .ok b →
        b.capacity = m ∧ b.count = 0 ∧ b.maximumCapacity = m ∧ b.refillRate = r
          ∧ b.lastTimestamp = now ∧ b.firstTimestamp = none)
    ∧ (1 ≤ m → 0 < r → ∃ b, Bucket.make now m r = .ok b)
    ∧ (∀ receiver m' r', childOf now (some (m', r')) receiver = Bucket.make now m' r') := by
  refine ⟨?_, ?_, ?_, fun receiver m' r' => rfl⟩
  · unfold Bucket.make
    by_cases hm : m ≥ 1
    · by_cases hr : r > 0
      · rw [if_neg (not_not_intro hm), if_neg (not_not_intro hr)]
        exact iff_of_false (by simp) (by push_neg; exact ⟨hm, hr⟩)
      · rw [if_neg (not_not_intro hm), if_pos hr]
        exact iff_of_true ⟨_, rfl⟩ (Or.inr (not_lt.mp hr))
    · rw [if_pos hm]
      exact iff_of_true ⟨_, rfl⟩ (Or.inl (not_le.mp hm))
  · intro b hb
    unfold Bucket.make at hb
    by_cases hm : m ≥ 1
    · by_cases hr : r > 0
      · rw [if_neg (not_not_intro hm), if_neg (not_not_intro hr)] at hb
        simp only [Except.ok.injEq] at hb
        subst hb
        exact ⟨rfl, rfl, rfl, rfl, rfl, rfl⟩
      · rw [if_neg (not_not_intro hm), if_pos hr] at hb
        simp at hb
    · rw [if_pos hm] at hb
      simp at hb
  · intro hm hr
    unfold Bucket.make
    rw [if_neg (not_not_intro hm), if_neg (not_not_intro hr)]
    exact ⟨_, rfl⟩

/-- Witness for C2 at concrete inputs: `maximumCapacity = 1/2` is rejected,
`(2, 1)` is accepted. -/
theorem construction_validates_iff_witness :
    (∃ e, Bucket.make 0 (1/2) 1 = .error e) ∧ (∃ b, Bucket.make 0 2 1 = .ok b) :=
  ⟨(construction_validates_iff 0 (1/2) 1).1.mpr (Or.inl (by norm_num)),
   (construction_validates_iff 0 2 1).2.2.1 (by norm_num) (by norm_num)⟩

/-- C3: `capacity ≤ maximumCapacity` holds after construction and is preserved
by every operation: refill clamps at `maximumCapacity`, the debit only
decreases capacity, `child` and `metadata` leave the receiver unchanged; and a
debit may drive capacity below `0`. -/
theorem capacity_le_maximum_invariant :
    (∀ now m r b, Bucket.make now m r = .ok b → b.capacity ≤ b.maximumCapacity)
    ∧ (∀ now b, (refreshCapacity now b).capacity ≤ b.maximumCapacity)
    ∧ (∀ b, (debitOne b).capacity < b.capacity)
    ∧ (∀ now chain, (∀ b ∈ chain, b.capacity ≤ b.maximumCapacity) →
        ∀ b' ∈ (takeFrom now chain).1, b'.capacity ≤ b'.maximumCapacity)
    ∧ (∀ now ov receiver out, deriveChild now ov receiver = .ok out → out.1 = receiver)
    ∧ (∀ chain, (metadataOf chain).2 = chain)
    ∧ (∃ now chain, (∀ b ∈ chain, 0 ≤ b.capacity) ∧
        ∃ b' ∈ (takeFrom now chain).1, b'.capacity < 0) := by
  refine ⟨?_, ?_, ?_, ?_, deriveChild_fst, fun chain => rfl,
    ⟨0, [debtBucket], debtBucket_take_negative⟩⟩
  · intro now m r b hb
    unfold Bucket.make at hb
    split_ifs at hb
    simp only [Except.ok.injEq] at hb
    subst hb
    exact le_refl _
  · intro now b
    rw [refreshCapacity_capacity]
    exact min_le_right _ _
  · intro b
    rw [debitOne_capacity]
    exact sub_lt_self _ one_pos
  · intro now chain _ b' hb'
    rw [takeFrom_fst] at hb'
    obtain ⟨a, _, rfl⟩ := List.mem_map.mp hb'
    rw [stepBucket_capacity, stepBucket_maximumCapacity]
    have := min_le_right (a.capacity + a.refillRate * ((now - a.lastTimestamp) / 1000))
      a.maximumCapacity
    linarith

/-- Witness for C3 at concrete inputs: the invariant after a concrete
construction and after a concrete `take`. -/
theorem capacity_le_maximum_invariant_witness :
    (freshBucket 2 1).capacity ≤ (freshBucket 2 1).maximumCapacity
    ∧ ∀ b' ∈ (takeFrom 0 [freshBucket 2 1]).1, b'.capacity ≤ b'.maximumCapacity :=
  ⟨capacity_le_maximum_invariant.1 0 2 1 (freshBucket 2 1) rfl,
   capacity_le_maximum_invariant.2.2.2.1 0 [freshBucket 2 1]
     (by intro b hb; simp only [List.mem_singleton] at hb; subst hb; decide)⟩

/-- C4 (amended): the code debits `this.capacity` only after the recursive
`parent?.take()` call — at the moment the parent's `take` begins, the callee
holds its refreshed, still-undebited capacity — but the order is observably
irrelevant: the debit-first variant produces the same final chain and the same
returned wait, which is the maximum across the whole chain. -/
theorem take_debit_order_observational (now : ℚ) (chain : List Bucket) :
    takeDebitFirst now chain = takeFrom now chain
    ∧ (∀ b rest, stateAtParentCall now b rest
        = refreshCapacity now (addOneToMetrics now b) :: rest) := by
  refine ⟨?_, fun b rest => rfl⟩
  induction chain with
  | nil => rfl
  | cons b rest ih => simp [takeFrom, takeDebitFirst, ih]

/-- Counterexample to C4 as stated: with a full `freshBucket 5 1` as callee, the
chain state at the moment the parent's `take` begins has the callee at its
refreshed capacity `5`, not at the debited capacity `4`, so the debit has NOT
already been applied when the parent's `take` executes. -/
theorem take_debit_order_counterexample :
    ¬ ((stateAtParentCall 0 (freshBucket 5 1) [freshBucket 9 1]).headI.capacity
        = (stepBucket 0 (freshBucket 5 1)).capacity) := by
  have h1 : (stateAtParentCall 0 (freshBucket 5 1) [freshBucket 9 1]).headI.capacity = 5 := by
    show (refreshCapacity 0 (addOneToMetrics 0 (freshBucket 5 1))).capacity = 5
    rw [refreshCapacity_capacity]
    simp only [addOneToMetrics_capacity, addOneToMetrics_refillRate,
      addOneToMetrics_lastTimestamp, addOneToMetrics_maximumCapacity]
    simp only [freshBucket]
    norm_num [min_def]
  have h2 : (stepBucket 0 (freshBucket 5 1)).capacity = 4 := by
    rw [stepBucket_capacity]
    simp only [freshBucket]
    norm_num [min_def]
  rw [h1, h2]
  norm_num

/-- C5 (amended): the code does not clamp elapsed time, but whenever the clock
reading is not earlier than `lastTimestamp` (a non-decreasing clock), a refill
step never decreases capacity and `lastTimestamp` is non-decreasing. -/
theorem refresh_forward_clock_monotone (now : ℚ) (b : Bucket)
    (hcap : b.capacity ≤ b.maximumCapacity) (hrate : 0 ≤ b.refillRate)
    (hts : b.lastTimestamp ≤ now) :
    b.capacity ≤ (refreshCapacity now b).capacity
    ∧ (refreshCapacity now b).lastTimestamp = now
    ∧ b.lastTimestamp ≤ (refreshCapacity now b).lastTimestamp := by
  refine ⟨?_, rfl, by simpa using hts⟩
  rw [refreshCapacity_capacity]
  have h1 : 0 ≤ b.refillRate * ((now - b.lastTimestamp) / 1000) :=
    mul_nonneg hrate (div_nonneg (sub_nonneg.mpr hts) (by norm_num))
  exact le_min (by linarith) hcap

/-- Witness for C5's amended statement at a concrete input. -/
theorem refresh_forward_clock_monotone_witness :
    backwardClockBucket.capacity ≤ (refreshCapacity 2000 backwardClockBucket).capacity :=
  (refresh_forward_clock_monotone 2000 backwardClockBucket (by decide) (by decide)
    (by decide)).1

/-- Counterexample to C5 as stated: a clock reading of `0` against
`lastTimestamp = 1000` is not clamped — the refill step decreases capacity
(from `5` to `-5`) and `lastTimestamp` decreases. -/
theorem refresh_backward_clock_counterexample :
    (refreshCapacity 0 backwardClockBucket).capacity < backwardClockBucket.capacity
    ∧ (refreshCapacity 0 backwardClockBucket).lastTimestamp
        < backwardClockBucket.lastTimestamp := by
  constructor
  · rw [refreshCapacity_capacity]
    simp only [backwardClockBucket]
    norm_num [min_def]
  · rw [refreshCapacity_lastTimestamp]
    simp only [backwardClockBucket]
    norm_num

section FreshBucketLemmas

@[simp] lemma freshBucket_capacity (m r : ℚ) : (freshBucket m r).capacity = m := rfl

@[simp] lemma freshBucket_maximumCapacity (m r : ℚ) :
    (freshBucket m r).maximumCapacity = m := rfl

@[simp] lemma freshBucket_refillRate (m r : ℚ) : (freshBucket m r).refillRate = r := rfl

@[simp] lemma freshBucket_lastTimestamp (m r : ℚ) : (freshBucket m r).lastTimestamp = 0 := rfl

@[simp] lemma freshBucket_firstTimestamp (m r : ℚ) :
    (freshBucket m r).firstTimestamp = none := rfl

end FreshBucketLemmas

/-- C8: `child()` with no overrides yields a child whose parent chain is the
receiver and whose configuration copies the receiver's, freshly initialised;
the receiver's own chain comes back unchanged — no field of any receiver
bucket is mutated. -/
theorem derive_child_inherits_and_preserves (now : ℚ) (hd : Bucket) (tl : List Bucket)
    (h1 : 1 ≤ hd.maximumCapacity) (h2 : 0 < hd.refillRate) :
    ∃ c, deriveChild now none (hd :: tl) = .ok (hd :: tl, c :: hd :: tl)
      ∧ c.maximumCapacity = hd.maximumCapacity ∧ c.refillRate = hd.refillRate
      ∧ c.capacity = hd.maximumCapacity ∧ c.count = 0 ∧ c.firstTimestamp = none
      ∧ c.lastTimestamp = now := by
  refine ⟨{ maximumCapacity := hd.maximumCapacity, refillRate := hd.refillRate,
            lastTimestamp := now, capacity := hd.maximumCapacity,
            firstTimestamp := none, count := 0 }, ?_, rfl, rfl, rfl, rfl, rfl, rfl⟩
  simp only [deriveChild, childOf, Bucket.make]
  rw [if_neg (not_not_intro h1), if_neg (not_not_intro h2)]
  rfl

/-- Witness for C8 at a concrete receiver. -/
theorem derive_child_inherits_witness :
    ∃ c, deriveChild 0 none [freshBucket 2 1] = .ok ([freshBucket 2 1], c :: [freshBucket 2 1])
      ∧ c.maximumCapacity = (freshBucket 2 1).maximumCapacity
      ∧ c.refillRate = (freshBucket 2 1).refillRate
      ∧ c.capacity = (freshBucket 2 1).maximumCapacity ∧ c.count = 0
      ∧ c.firstTimestamp = none ∧ c.lastTimestamp = 0 :=
  derive_child_inherits_and_preserves 0 (freshBucket 2 1) [] (by decide) (by decide)

/-- C9 (amended): `firstTimestamp` is unset until the first `take`, which sets
it to the current time; refill, debit and child-derivation never touch it, and
a later `take` preserves it provided the recorded value is nonzero. (A recorded
value of `0` is falsy in the source's `if (!this.firstTimestamp)` test and
would be overwritten.) -/
theorem first_take_timestamp_set_once_if_nonzero (now t : ℚ) (b : Bucket)
    (rest : List Bucket) :
    (b.firstTimestamp = none →
      ((takeFrom now (b :: rest)).1.headI).firstTimestamp = some now)
    ∧ (b.firstTimestamp = some t → t ≠ 0 →
      ((takeFrom now (b :: rest)).1.headI).firstTimestamp = some t)
    ∧ (∀ now', (refreshCapacity now' b).firstTimestamp = b.firstTimestamp)
    ∧ (debitOne b).firstTimestamp = b.firstTimestamp
    ∧ (∀ ov out, deriveChild now ov (b :: rest) = .ok out → out.1 = b :: rest) := by
  refine ⟨?_, ?_, fun now' => rfl, rfl, fun ov out h => deriveChild_fst now ov _ out h⟩
  · intro h
    show (addOneToMetrics now b).firstTimestamp = some now
    simp [addOneToMetrics, jsFalsy, h]
  · intro h ht
    show (addOneToMetrics now b).firstTimestamp = some t
    simp [addOneToMetrics, jsFalsy, h, ht]

/-- Witness for C9's amended statement: the first `take` on a fresh bucket
records the current time. -/
theorem first_take_timestamp_witness :
    ((takeFrom 7 [freshBucket 10 1]).1.headI).firstTimestamp = some 7 :=
  (first_take_timestamp_set_once_if_nonzero 7 1 (freshBucket 10 1) []).1 rfl

/-- Counterexample to C9 as stated: a first `take` at clock reading `0` records
`firstTimestamp = some 0`, and the next `take` (at time `5000`) overwrites it,
because `0` is falsy in `if (!this.firstTimestamp)`. -/
theorem first_take_timestamp_counterexample :
    ((takeFrom 0 [freshBucket 10 1]).1.headI).firstTimestamp = some 0
    ∧ ((takeFrom 5000 (takeFrom 0 [freshBucket 10 1]).1).1.headI).firstTimestamp
        = some 5000 := ⟨rfl, rfl⟩

section IterationLemmas

lemma afterTakes_succ (now : ℚ) (k : ℕ) (chain : List Bucket) :
    afterTakes now (k + 1) chain = afterTakes now k (takeFrom now chain).1 := rfl

lemma nextWait_succ (now : ℚ) (k : ℕ) (chain : List Bucket) :
    nextWait now (k + 1) chain = nextWait now k (takeFrom now chain).1 := rfl

/-- Since `take` acts on each chain member independently, `k` successive takes
iterate the per-bucket step `k` times on every member. -/
lemma afterTakes_eq_iterate (now : ℚ) (k : ℕ) (chain : List Bucket) :
    afterTakes now k chain = chain.map fun b => (stepBucket now)^[k] b := by
  induction k generalizing chain with
  | zero => simp [afterTakes, takeSeq]
  | succ k ih =>
    rw [afterTakes_succ, ih, takeFrom_fst, List.map_map]
    simp [Function.comp, Function.iterate_succ_apply]

/-- With no elapsed time, the refill is the identity (given the capacity
invariant) and one take step just debits one token. -/
lemma stepBucket_zero_elapsed (now : ℚ) (b : Bucket)
    (h1 : b.lastTimestamp = now) (h2 : b.capacity ≤ b.maximumCapacity) :
    (stepBucket now b).capacity = b.capacity - 1 := by
  rw [stepBucket_capacity, h1, sub_self, zero_div, mul_zero, add_zero, min_eq_left h2]

/-- Fields of a bucket after `k` zero-elapsed take steps. -/
lemma iterate_stepBucket_fields (now : ℚ) (b : Bucket)
    (h1 : b.lastTimestamp = now) (h2 : b.capacity ≤ b.maximumCapacity) (k : ℕ) :
    ((stepBucket now)^[k] b).capacity = b.capacity - k
    ∧ ((stepBucket now)^[k] b).lastTimestamp = now
    ∧ ((stepBucket now)^[k] b).maximumCapacity = b.maximumCapacity
    ∧ ((stepBucket now)^[k] b).refillRate = b.refillRate := by
  induction k with
  | zero => simp [h1]
  | succ k ih =>
    obtain ⟨hc, hl, hm, hr⟩ := ih
    rw [Function.iterate_succ_apply']
    have hcle : ((stepBucket now)^[k] b).capacity
        ≤ ((stepBucket now)^[k] b).maximumCapacity := by
      rw [hc, hm]
      have : (0:ℚ) ≤ (k:ℚ) := Nat.cast_nonneg k
      linarith
    refine ⟨?_, stepBucket_lastTimestamp now _, ?_, ?_⟩
    · rw [stepBucket_zero_elapsed now _ hl hcle, hc]
      push_cast
      ring
    · rw [stepBucket_maximumCapacity, hm]
    · rw [stepBucket_refillRate, hr]

/-- The deficit-closing time of a chain member, written out. -/
lemma waitOf_formula (now : ℚ) (b : Bucket) :
    waitOf now b
      = (1 - min (b.capacity + b.refillRate * ((now - b.lastTimestamp) / 1000))
            b.maximumCapacity) / b.refillRate := by
  unfold waitOf
  rw [refreshCapacity_capacity]
  simp only [addOneToMetrics_capacity, addOneToMetrics_refillRate,
    addOneToMetrics_lastTimestamp, addOneToMetrics_maximumCapacity,
    refreshCapacity_refillRate]

/-- With no elapsed time the deficit-closing time is `(1 - capacity) / rate`. -/
lemma waitOf_zero_elapsed (now : ℚ) (b : Bucket)
    (h1 : b.lastTimestamp = now) (h2 : b.capacity ≤ b.maximumCapacity) :
    waitOf now b = (1 - b.capacity) / b.refillRate := by
  rw [waitOf_formula, h1, sub_self, zero_div, mul_zero, add_zero, min_eq_left h2]

/-- The wait returned by the take following `k` zero-elapsed takes on a single
parentless bucket. -/
lemma nextWait_single_formula (now : ℚ) (k : ℕ) (b : Bucket)
    (h1 : b.lastTimestamp = now) (h2 : b.capacity ≤ b.maximumCapacity) :
    nextWait now k [b] = max ((1 - (b.capacity - k)) / b.refillRate) 0 := by
  show (takeFrom now (afterTakes now k [b])).2 = _
  rw [takeFrom_snd, afterTakes_eq_iterate]
  simp only [List.map_cons, List.map_nil, List.foldr_cons, List.foldr_nil]
  obtain ⟨hc, hl, hm, hr⟩ := iterate_stepBucket_fields now b h1 h2 k
  have hle : ((stepBucket now)^[k] b).capacity ≤ ((stepBucket now)^[k] b).maximumCapacity := by
    rw [hc, hm]
    have : (0:ℚ) ≤ (k:ℚ) := Nat.cast_nonneg k
    linarith
  rw [waitOf_zero_elapsed now _ hl hle, hc, hr]

/-- Field values guaranteed by a successful construction. -/
lemma make_ok_fields (now m r : ℚ) (b : Bucket) (h : Bucket.make now m r = .ok b) :
    1 ≤ m ∧ 0 < r ∧ b.capacity = m ∧ b.maximumCapacity = m ∧ b.refillRate = r
      ∧ b.lastTimestamp = now := by
  unfold Bucket.make at h
  by_cases hm : m ≥ 1
  · by_cases hr : r > 0
    · rw [if_neg (not_not_intro hm), if_neg (not_not_intro hr)] at h
      simp only [Except.ok.injEq] at h
      subst h
      exact ⟨hm, hr, rfl, rfl, rfl, rfl⟩
    · rw [if_neg (not_not_intro hm), if_pos hr] at h
      simp at h
  · rw [if_pos hm] at h
    simp at h

/-- After `k` zero-elapsed take steps on a fresh bucket, the next
deficit-closing time is `(1 - (m - k)) / r`. -/
lemma waitOf_iterate_fresh (m r : ℚ) (k : ℕ) :
    waitOf 0 ((stepBucket 0)^[k] (freshBucket m r)) = (1 - (m - k)) / r := by
  obtain ⟨hc, hl, hm, hr⟩ :=
    iterate_stepBucket_fields 0 (freshBucket m r) rfl (le_refl _) k
  have hle : ((stepBucket 0)^[k] (freshBucket m r)).capacity
      ≤ ((stepBucket 0)^[k] (freshBucket m r)).maximumCapacity := by
    rw [hc, hm, freshBucket_capacity, freshBucket_maximumCapacity]
    have : (0:ℚ) ≤ (k:ℚ) := Nat.cast_nonneg k
    linarith
  rw [waitOf_zero_elapsed 0 _ hl hle, hc, hr, freshBucket_capacity, freshBucket_refillRate]

end IterationLemmas

/-- C1: `take` debits exactly one token from the called bucket and from every
ancestor (it is total, so it cannot fail), and returns the maximum of `0` and
each chain member's post-refill deficit-closing time `(1 - capacity) /
refillRate`; in the spec's example — grandparent(10, 1), parent(100, 10),
child(1000, 100), all full, no elapsed time — ten takes followed by one more
return `1`. -/
theorem take_debits_each_and_returns_chain_max (now : ℚ) (chain : List Bucket) :
    (takeFrom now chain).1.map Bucket.capacity
      = chain.map (fun b => (refreshCapacity now (addOneToMetrics now b)).capacity - 1)
    ∧ (takeFrom now chain).2 = (chain.map (waitOf now)).foldr max 0
    ∧ nextWait 0 10 exampleChain = 1 := by
  refine ⟨?_, takeFrom_snd now chain, ?_⟩
  · rw [takeFrom_fst, List.map_map]
    rfl
  · show (takeFrom 0 (afterTakes 0 10 exampleChain)).2 = 1
    rw [takeFrom_snd, afterTakes_eq_iterate]
    simp only [exampleChain, List.map_cons, List.map_nil, List.foldr_cons, List.foldr_nil]
    rw [waitOf_iterate_fresh 1000 100 10, waitOf_iterate_fresh 100 10 10,
      waitOf_iterate_fresh 10 1 10]
    norm_num [max_def]

/-- C6: starting from a fresh, valid bucket with no time elapsing, the first
`⌊maximumCapacity⌋` takes each return `0` (the very first decrementing capacity
to `maximumCapacity - 1`), and the next take returns a strictly positive
wait. -/
theorem fresh_bucket_first_floor_takes (now m r : ℚ) (b : Bucket)
    (h : Bucket.make now m r = .ok b) :
    (∀ k : ℕ, k < Nat.floor m → nextWait now k [b] = 0)
    ∧ 0 < nextWait now (Nat.floor m) [b]
    ∧ (afterTakes now 1 [b]).map Bucket.capacity = [m - 1] := by
  obtain ⟨hm, hr, hcap, hmax, hrate, hlast⟩ := make_ok_fields now m r b h
  have h2 : b.capacity ≤ b.maximumCapacity := by rw [hcap, hmax]
  have hform : ∀ k : ℕ, nextWait now k [b] = max ((1 - (m - k)) / r) 0 := by
    intro k
    rw [nextWait_single_formula now k b hlast h2, hcap, hrate]
  refine ⟨?_, ?_, ?_⟩
  · intro k hk
    rw [hform k]
    have hk1 : (k:ℚ) + 1 ≤ (Nat.floor m : ℚ) := by exact_mod_cast Nat.succ_le_of_lt hk
    have hk2 : (Nat.floor m : ℚ) ≤ m := Nat.floor_le (by linarith)
    have hnp : (1 - (m - k)) / r ≤ 0 := by
      rw [div_le_iff₀ hr]
      linarith
    exact max_eq_right hnp
  · rw [hform]
    have hfl : m < (Nat.floor m : ℚ) + 1 := Nat.lt_floor_add_one m
    have hpos : 0 < (1 - (m - Nat.floor m)) / r := div_pos (by linarith) hr
    exact lt_max_iff.mpr (Or.inl hpos)
  · rw [afterTakes_eq_iterate]
    simp only [List.map_cons, List.map_nil]
    obtain ⟨hc, _, _, _⟩ := iterate_stepBucket_fields now b hlast h2 1
    rw [hc, hcap]
    norm_num

/-- Witness for C6 at a concrete bucket: `maximumCapacity = 3`, `refillRate =
2`; the second take returns `0` and the take after the third returns a positive
wait. -/
theorem fresh_bucket_first_floor_takes_witness :
    nextWait 0 1 [freshBucket 3 2] = 0
    ∧ 0 < nextWait 0 (Nat.floor (3:ℚ)) [freshBucket 3 2] := by
  have h := fresh_bucket_first_floor_takes 0 3 2 (freshBucket 3 2) rfl
  refine ⟨h.1 1 ?_, h.2.1⟩
  rw [Nat.floor_ofNat]
  norm_num

/-- C7: a parentless `freshBucket 100 10` depleted to capacity `0` by 100
takes, then given exactly 1 second (1000 ms) of elapsed time: the next 10 takes
each return `0`, and the 11th returns exactly `0.1`. -/
theorem depleted_bucket_refill_example :
    Bucket.make 0 100 10 = .ok (freshBucket 100 10)
    ∧ (afterTakes 0 100 [freshBucket 100 10]).map Bucket.capacity = [0]
    ∧ (∀ k : ℕ, k < 10 → nextWait 1000 k (afterTakes 0 100 [freshBucket 100 10]) = 0)
    ∧ nextWait 1000 10 (afterTakes 0 100 [freshBucket 100 10]) = 1 / 10 := by
  obtain ⟨hc, hl, hm, hr⟩ :=
    iterate_stepBucket_fields 0 (freshBucket 100 10) rfl (le_refl _) 100
  simp only [freshBucket_capacity, freshBucket_maximumCapacity, freshBucket_refillRate]
    at hc hm hr
  have hc0 : ((stepBucket 0)^[100] (freshBucket 100 10)).capacity = 0 := by
    rw [hc]; norm_num
  have hchain : afterTakes 0 100 [freshBucket 100 10]
      = [(stepBucket 0)^[100] (freshBucket 100 10)] := by
    rw [afterTakes_eq_iterate]
    simp
  have hecap : (stepBucket 1000 ((stepBucket 0)^[100] (freshBucket 100 10))).capacity = 9 := by
    rw [stepBucket_capacity, hc0, hl, hm, hr]
    norm_num [min_def]
  have hele : (stepBucket 1000 ((stepBucket 0)^[100] (freshBucket 100 10))).capacity
      ≤ (stepBucket 1000 ((stepBucket 0)^[100] (freshBucket 100 10))).maximumCapacity := by
    rw [hecap, stepBucket_maximumCapacity, hm]
    norm_num
  have hsucc : ∀ j : ℕ,
      nextWait 1000 (j + 1) (afterTakes 0 100 [freshBucket 100 10])
        = max ((1 - (9 - (j:ℚ))) / 10) 0 := by
    intro j
    rw [hchain, nextWait_succ, takeFrom_fst]
    simp only [List.map_cons, List.map_nil]
    rw [nextWait_single_formula 1000 j _ (stepBucket_lastTimestamp 1000 _) hele, hecap,
      stepBucket_refillRate, hr]
  refine ⟨rfl, ?_, ?_, ?_⟩
  · rw [hchain]
    simp only [List.map_cons, List.map_nil]
    rw [hc0]
  · intro k hk
    cases k with
    | zero =>
      rw [hchain]
      show (takeFrom 1000 [(stepBucket 0)^[100] (freshBucket 100 10)]).2 = 0
      rw [takeFrom_snd]
      simp only [List.map_cons, List.map_nil, List.foldr_cons, List.foldr_nil]
      rw [waitOf_formula, hc0, hl, hm, hr]
      norm_num [min_def, max_def]
    | succ j =>
      rw [hsucc j]
      have hj : (j:ℚ) ≤ 8 := by exact_mod_cast (by omega : j ≤ 8)
      have : (1 - (9 - (j:ℚ))) / 10 ≤ 0 := by
        rw [div_le_iff₀ (by norm_num : (0:ℚ) < 10)]
        linarith
      exact max_eq_right this
  · rw [hsucc 9]
    norm_num

/-- Witness for C7: the fourth post-refill take (still within the ten freed
tokens) returns `0`. -/
theorem depleted_bucket_refill_example_witness :
    nextWait 1000 3 (afterTakes 0 100 [freshBucket 100 10]) = 0 :=
  depleted_bucket_refill_example.2.2.1 3 (by norm_num)

section MonotonicityLemmas

/-- One take step never shortens a bucket's own deficit-closing time (at a
fixed instant): the step debits one token and the immediately following refill
adds nothing, so the wait grows by exactly `1 / refillRate`. -/
lemma waitOf_stepBucket_le (now : ℚ) (b : Bucket) (hr : 0 < b.refillRate) :
    waitOf now b ≤ waitOf now (stepBucket now b) := by
  rw [waitOf_formula, waitOf_formula, stepBucket_capacity, stepBucket_refillRate,
    stepBucket_maximumCapacity, stepBucket_lastTimestamp]
  set y := min (b.capacity + b.refillRate * ((now - b.lastTimestamp) / 1000))
    b.maximumCapacity with hy
  have hymax : y ≤ b.maximumCapacity := min_le_right _ _
  rw [sub_self, zero_div, mul_zero, add_zero, min_eq_left (by linarith)]
  exact (div_le_div_iff_of_pos_right hr).mpr (by linarith)

lemma takeFrom_preserves_rates (now : ℚ) (chain : List Bucket)
    (h : ∀ b ∈ chain, 0 < b.refillRate) :
    ∀ b' ∈ (takeFrom now chain).1, 0 < b'.refillRate := by
  rw [takeFrom_fst]
  intro b' hb'
  obtain ⟨a, ha, rfl⟩ := List.mem_map.mp hb'
  rw [stepBucket_refillRate]
  exact h a ha

lemma foldr_max_le_foldr_max (f g : Bucket → ℚ) (l : List Bucket)
    (h : ∀ b ∈ l, f b ≤ g b) :
    (l.map f).foldr max 0 ≤ (l.map g).foldr max 0 := by
  induction l with
  | nil => exact le_refl 0
  | cons a l ih =>
    simp only [List.map_cons, List.foldr_cons]
    exact max_le_max (h a (List.mem_cons_self a l))
      (ih fun b hb => h b (List.mem_cons_of_mem a hb))

/-- At a fixed instant, the wait returned by a `take` is at least the wait
returned by the previous `take` on the same chain. -/
lemma takeFrom_wait_mono (now : ℚ) (chain : List Bucket)
    (h : ∀ b ∈ chain, 0 < b.refillRate) :
    (takeFrom now chain).2 ≤ (takeFrom now (takeFrom now chain).1).2 := by
  rw [takeFrom_snd, takeFrom_fst, takeFrom_snd, List.map_map]
  apply foldr_max_le_foldr_max
  intro b hb
  exact waitOf_stepBucket_le now b (h b hb)

end MonotonicityLemmas

/-- C10: with zero time elapsing between calls, successive `take` calls on a
fixed chain return a non-decreasing sequence of waits — each call deepens every
bucket's deficit by one token, so no later wait can be smaller. -/
theorem successive_waits_monotone (now : ℚ) (k : ℕ) (chain : List Bucket)
    (h : ∀ b ∈ chain, 0 < b.refillRate) :
    List.Chain' (· ≤ ·) (takeSeq now k chain).1 := by
  induction k generalizing chain with
  | zero => simp [takeSeq]
  | succ k ih =>
    cases k with
    | zero => simp [takeSeq]
    | succ j =>
      have hshape : (takeSeq now (j + 1 + 1) chain).1
          = (takeFrom now chain).2
            :: (takeFrom now (takeFrom now chain).1).2
            :: (takeSeq now j (takeFrom now (takeFrom now chain).1).1).1 := rfl
      rw [hshape, List.chain'_cons]
      refine ⟨takeFrom_wait_mono now chain h, ?_⟩
      have hrest : (takeSeq now (j + 1) (takeFrom now chain).1).1
          = (takeFrom now (takeFrom now chain).1).2
            :: (takeSeq now j (takeFrom now (takeFrom now chain).1).1).1 := rfl
      rw [← hrest]
      exact ih (takeFrom now chain).1 (takeFrom_preserves_rates now chain h)

/-- Witness for C10 on a concrete chain: three successive waits on a fresh
two-token bucket form a non-decreasing sequence. -/
theorem successive_waits_monotone_witness :
    List.Chain' (· ≤ ·) (takeSeq 0 3 [freshBucket 2 1]).1 :=
  successive_waits_monotone 0 3 [freshBucket 2 1]
    (by intro b hb; simp only [List.mem_singleton] at hb; subst hb; decide)
